import Mathlib

/-!
Shallow embedding of the AI-PDF-Editor pipeline (pdf_processor.py, utils.py,
gemini_client.py, config.py) and proofs about it.

Python strings are modelled as Lean `String`; Python `in` (substring test),
`str.replace`, `str.lower`, `str.strip` are modelled by `pyContains`,
`pyReplace`, `pyLower`, `pyStrip` below, following CPython semantics.
Floating point page geometry is modelled over `ℚ` (only carried around and
added, never compared or rounded by the code under verification).

External library effects (PyMuPDF's `insert_text` / `add_highlight_annot`
raising) are modelled by an oracle `Env` deciding which draw calls succeed;
`draw_rect` on a fresh page is modelled as non-failing.  Dict accesses that
can raise `KeyError` are modelled with `Option`-valued fields; a propagated
exception caught by the outer `try` of `apply_modifications_to_pdf` is the
`none` result.
-/

namespace AiPdfEditor

/-! ## Python string primitives -/

/-- Python whitespace characters recognised by `str.strip()` (ASCII subset). -/
def pyWs (c : Char) : Bool :=
  c == ' ' || c == '\t' || c == '\n' || c == '\r' || c == '\x0b' || c == '\x0c'

/-- Python `s.strip()`: drop leading and trailing whitespace. -/
def pyStrip (s : String) : String :=
  ⟨((s.data.dropWhile pyWs).reverse.dropWhile pyWs).reverse⟩

/-- Python `s.lower()` (ASCII, which is all the repository's literals use). -/
def pyLower (s : String) : String :=
  ⟨s.data.map Char.toLower⟩

/-- Python `needle in hay` for strings: substring containment. -/
def pyContains (needle hay : String) : Bool :=
  decide (needle.data <:+: hay.data)

/-- Replace every non-overlapping occurrence of the nonempty pattern
`p :: ps` in the input by `rep`, scanning left to right — CPython
`str.replace` semantics for a nonempty pattern.  The extra `Nat` argument
is structural-recursion fuel: every step consumes at least one input
character and one unit of fuel, so any fuel at least the input length
(every caller passes exactly the input length) gives the untruncated
result, and the function stays kernel-reducible. -/
def replaceAux (p : Char) (ps rep : List Char) : Nat → List Char → List Char
  | 0, _ => []
  | _ + 1, [] => []
  | fuel + 1, c :: rest =>
    if (p :: ps) <+: (c :: rest) then
      rep ++ replaceAux p ps rep fuel (rest.drop ps.length)
    else
      c :: replaceAux p ps rep fuel rest

/-- Python `s.replace(pat, rep)`.  For an empty pattern CPython inserts
`rep` before every character and at the end. -/
def pyReplace (s pat rep : String) : String :=
  match pat.data with
  | [] => ⟨rep.data ++ (s.data.map (fun c => c :: rep.data)).flatten⟩
  | p :: ps => ⟨replaceAux p ps rep.data s.data.length s.data⟩

/-! ## Data model (config.py constants, extracted structures) -/

/-- A colour value: PyMuPDF span colours are integers, the defaults from
config.py are RGB triples; both flow into the same dict slot. -/
inductive Color where
  | int (n : Int)
  | rgb (r g b : ℚ)
deriving DecidableEq

/-- config.py `DEFAULT_TEXT_COLOR = (0, 0, 0)`. -/
def DEFAULT_TEXT_COLOR : Color := Color.rgb 0 0 0

/-- config.py `DEFAULT_HIGHLIGHT_COLOR = (1, 1, 0)`. -/
def DEFAULT_HIGHLIGHT_COLOR : Color := Color.rgb 1 1 0

/-- config.py `DEFAULT_FONT_SIZE = 12`. -/
def DEFAULT_FONT_SIZE : ℚ := 12

/-- A span bounding box `[x0, y0, x1, y1]`. -/
structure BBox where
  x0 : ℚ
  y0 : ℚ
  x1 : ℚ
  y1 : ℚ
deriving DecidableEq

/-- One modification dict as consumed by `apply_modifications_to_pdf`.
Each field is `Option`-valued: `none` models a missing dict key, whose
access raises `KeyError`.  UI-only keys (`context`, `reason`,
`humanization_note`) are omitted: the applicator never reads them. -/
structure ModDict where
  type : Option String
  original_text : Option String
  new_text : Option String
  text_to_highlight : Option String
deriving DecidableEq

/-- One extracted text span (`text_blocks` entry built by
`extract_pdf_data`). -/
structure TextBlock where
  text : String
  bbox : BBox
  size : ℚ
  font : String
  color : Color
deriving DecidableEq

/-- One `pages_data` entry built by `extract_pdf_data` and consumed by
`apply_modifications_to_pdf`. -/
structure PageData where
  page_num : Nat
  page_width : ℚ
  page_height : ℚ
  text_blocks : List TextBlock
deriving DecidableEq

/-- A raw PyMuPDF span as returned by `page.get_text("dict")`. -/
structure RawSpan where
  text : String
  bbox : BBox
  size : ℚ
  font : String
  color : Int
deriving DecidableEq

/-- A raw PyMuPDF block: text blocks carry a `"lines"` key holding lists of
spans; image blocks have no `"lines"` key. -/
inductive RawBlock where
  | textBlock (lines : List (List RawSpan))
  | imageBlock
deriving DecidableEq

/-- A raw parsed page: geometry plus its blocks. -/
structure RawPage where
  width : ℚ
  height : ℚ
  blocks : List RawBlock
deriving DecidableEq

/-- One draw command issued against an output page. -/
inductive Cmd where
  | insertText (pos : ℚ × ℚ) (text : String) (fontsize : ℚ) (color : Option Color)
  | highlightAnnot (bbox : BBox) (stroke : Color)
  | rectOutline (bbox : BBox) (color : Color) (width : ℚ)
deriving DecidableEq

/-- An output page: created with the source page's geometry, then drawn to. -/
structure Page where
  width : ℚ
  height : ℚ
  cmds : List Cmd
deriving DecidableEq

/-- Oracle for the external PDF library calls that can raise and are caught
per-span: primary `insert_text`, the default-font fallback `insert_text`,
and `add_highlight_annot`/`set_colors`/`update`.  `draw_rect` on a fresh
page is modelled as non-failing. -/
structure Env where
  insertOk : (ℚ × ℚ) → String → ℚ → Color → Bool
  insertFallbackOk : (ℚ × ℚ) → String → Bool
  annotOk : BBox → Bool

/-- The all-succeeding environment. -/
def envAll : Env :=
  { insertOk := fun _ _ _ _ => true
    insertFallbackOk := fun _ _ => true
    annotOk := fun _ => true }

/-! ## Span Extractor: pdf_processor.extract_pdf_data -/

/-- Inner span loop of `extract_pdf_data`: keep a span only when its text is
non-empty after stripping; substitute `DEFAULT_TEXT_COLOR` when the raw
colour is `0`. -/
def extractLine : List RawSpan → List TextBlock
  | [] => []
  | s :: rest =>
    if pyStrip s.text = "" then extractLine rest
    else
      { text := s.text, bbox := s.bbox, size := s.size, font := s.font,
        color := if s.color = 0 then DEFAULT_TEXT_COLOR else Color.int s.color }
        :: extractLine rest

/-- Line loop of `extract_pdf_data`. -/
def extractLines : List (List RawSpan) → List TextBlock
  | [] => []
  | line :: rest => extractLine line ++ extractLines rest

/-- Block loop of `extract_pdf_data`: image blocks (no `"lines"` key) are
skipped. -/
def extractSpans : List RawBlock → List TextBlock
  | [] => []
  | RawBlock.imageBlock :: rest => extractSpans rest
  | RawBlock.textBlock lines :: rest => extractLines lines ++ extractSpans rest

/-- Page loop of `extract_pdf_data`, carrying the running page number. -/
def extractPages (k : Nat) : List RawPage → List PageData
  | [] => []
  | p :: rest =>
    { page_num := k, page_width := p.width, page_height := p.height,
      text_blocks := extractSpans p.blocks } :: extractPages (k + 1) rest

/-- pdf_processor.extract_pdf_data on an already-parsed document (the
`fitz.open` failure path returns `[]` before this loop and is external). -/
def extract_pdf_data (doc : List RawPage) : List PageData :=
  extractPages 0 doc

/-! ## Edit Applicator: pdf_processor.apply_modifications_to_pdf -/

/-- Body of the replacement loop for one modification dict `m`, given the
span's original text and the current (partially edited) text.  Mirrors:
`if mod["type"] == "replace": if mod["original_text"] in original_text:
modified_text = modified_text.replace(...)`.  `none` is a `KeyError`. -/
def modStep (origText cur : String) (m : ModDict) : Option String := do
  let t ← m.type
  if t = "replace" then
    let o ← m.original_text
    if pyContains o origText then
      let n ← m.new_text
      pure (pyReplace cur o n)
    else
      pure cur
  else
    pure cur

/-- The full `for mod in modifications` replacement loop over one span. -/
def applyReplaceMods (origText : String) : List ModDict → String → Option String
  | [], cur => some cur
  | m :: rest, cur => do
    let next ← modStep origText cur m
    applyReplaceMods origText rest next

/-- The modified text of one span: the replacement loop started from the
span's original text. -/
def computeModifiedText (mods : List ModDict) (origText : String) : Option String :=
  applyReplaceMods origText mods origText

/-- Draw one span: skip when the modified text strips to empty, otherwise
try the primary `insert_text`, then the default-font fallback, then give up
(the nested `try`/`except` pair). -/
def renderBlock (env : Env) (mods : List ModDict) (b : TextBlock) : Option (List Cmd) := do
  let modified ← computeModifiedText mods b.text
  if pyStrip modified = "" then
    pure []
  else
    let pos := (b.bbox.x0, b.bbox.y0 + b.size)
    if env.insertOk pos modified b.size b.color then
      pure [Cmd.insertText pos modified b.size (some b.color)]
    else
      let fpos := (b.bbox.x0, b.bbox.y0 + DEFAULT_FONT_SIZE)
      if env.insertFallbackOk fpos modified then
        pure [Cmd.insertText fpos modified DEFAULT_FONT_SIZE none]
      else
        pure []

/-- The `for block in page_data["text_blocks"]` text pass of one page. -/
def renderBlocks (env : Env) (mods : List ModDict) : List TextBlock → Option (List Cmd)
  | [] => some []
  | b :: rest => do
    let cs ← renderBlock env mods b
    let rest2 ← renderBlocks env mods rest
    pure (cs ++ rest2)

/-- The marks drawn for one highlight target against one span: a native
highlight annotation with the default stroke colour or, when the
annotation call fails, an unfilled rectangle outline of width 2 at the
same bounding box. -/
def markFor (env : Env) (target : String) (b : TextBlock) : List Cmd :=
  if pyContains (pyLower target) (pyLower b.text) then
    if env.annotOk b.bbox then
      [Cmd.highlightAnnot b.bbox DEFAULT_HIGHLIGHT_COLOR]
    else
      [Cmd.rectOutline b.bbox DEFAULT_HIGHLIGHT_COLOR 2]
  else
    []

/-- Inner `for block in page_data["text_blocks"]` loop of the highlight
pass: the `text_to_highlight` key is read once per block, so a missing key
only raises when the page has at least one span. -/
def highlightSpans (env : Env) (m : ModDict) : List TextBlock → Option (List Cmd)
  | [] => some []
  | b :: rest => do
    let target ← m.text_to_highlight
    let rest2 ← highlightSpans env m rest
    pure (markFor env target b ++ rest2)

/-- Body of the highlight pass for one modification dict: read `type`
(a `KeyError` when missing), run the span scan when it is a highlight. -/
def hlStep (env : Env) (blocks : List TextBlock) (m : ModDict) : Option (List Cmd) := do
  let t ← m.type
  if t = "highlight" then highlightSpans env m blocks else pure []

/-- The `for mod in modifications` highlight pass of one page. -/
def renderHighlightMods (env : Env) (blocks : List TextBlock) : List ModDict → Option (List Cmd)
  | [] => some []
  | m :: rest => do
    let here ← hlStep env blocks m
    let rest2 ← renderHighlightMods env blocks rest
    pure (here ++ rest2)

/-- One page of `apply_modifications_to_pdf`: create a page with the source
geometry, run the text pass, then the highlight pass. -/
def renderPage (env : Env) (mods : List ModDict) (pd : PageData) : Option Page := do
  let textCmds ← renderBlocks env mods pd.text_blocks
  let hlCmds ← renderHighlightMods env pd.text_blocks mods
  pure { width := pd.page_width, height := pd.page_height, cmds := textCmds ++ hlCmds }

/-- The page loop. -/
def renderPages (env : Env) (mods : List ModDict) : List PageData → Option (List Page)
  | [] => some []
  | pd :: rest => do
    let pg ← renderPage env mods pd
    let rest2 ← renderPages env mods rest
    pure (pg :: rest2)

/-- pdf_processor.apply_modifications_to_pdf: `some doc` is the saved
document (return `True`); `none` is an uncaught per-page exception reaching
the outer `except` (return `False`). -/
def apply_modifications_to_pdf (env : Env) (pages : List PageData)
    (mods : List ModDict) : Option (List Page) :=
  renderPages env mods pages

/-- Outcome of `generate_modified_pdf`: the returned bytes (`none` models
the empty byte string `b""`) and whether the temporary file was removed. -/
structure GenOutcome where
  output : Option (List Page)
  tempRemoved : Bool
deriving DecidableEq

/-- pdf_processor.generate_modified_pdf: on success the temp file is read
and unlinked; when `apply_modifications_to_pdf` fails, the raised exception
jumps to the `except` branch, which returns `b""` without reaching
`os.unlink`. -/
def generate_modified_pdf (env : Env) (pages : List PageData)
    (mods : List ModDict) : GenOutcome :=
  match apply_modifications_to_pdf env pages mods with
  | some doc => { output := some doc, tempRemoved := true }
  | none => { output := none, tempRemoved := false }

/-! ## Fallback heuristic: utils.create_fallback_modification -/

/-- The single-quote character, written via its code point. -/
def squote : Char := Char.ofNat 39

/-- A string holding one single-quote character. -/
def sq : String := String.singleton squote

/-- Characters matched by the quote class in the fallback regex. -/
def isQuoteChar (c : Char) : Bool := c == squote || c == '"'

/-- Characters matched by Python regex whitespace class (ASCII subset). -/
def pyReWs (c : Char) : Bool :=
  c == ' ' || c == '\t' || c == '\n' || c == '\r' || c == '\x0b' || c == '\x0c'

/-- Match a literal character sequence at the head of the input, returning
the remainder. -/
def dropLit : List Char → List Char → Option (List Char)
  | [], s => some s
  | _ :: _, [] => none
  | c :: cs, d :: ds => if c == d then dropLit cs ds else none

/-- Match one or more characters satisfying `p` at the head of the input,
greedily, returning the run and the remainder. -/
def takeRun1 (p : Char → Bool) (s : List Char) : Option (List Char × List Char) :=
  match s.span p with
  | (run, rest) => if run.isEmpty then none else some (run, rest)

/-- Match one quote character (single or double) at the head of the input. -/
def dropQuote : List Char → Option (List Char)
  | [] => none
  | c :: cs => if isQuoteChar c then some cs else none

/-- Try to match the fallback regex
`change\s+[quote]([^quotes]+)[quote]\s+to\s+[quote]([^quotes]+)[quote]`
anchored at the head of the input, returning the two capture groups.
Greedy matching without backtracking is exact here: every greedy
sub-pattern (a whitespace run or a non-quote run) is followed by a
character class disjoint from it, so no shorter match can ever succeed
where the maximal one fails. -/
def matchChangeAt (s : List Char) : Option (List Char × List Char) := do
  let s ← dropLit "change".data s
  let (_, s) ← takeRun1 pyReWs s
  let s ← dropQuote s
  let (a, s) ← takeRun1 (fun c => !(isQuoteChar c)) s
  let s ← dropQuote s
  let (_, s) ← takeRun1 pyReWs s
  let s ← dropLit "to".data s
  let (_, s) ← takeRun1 pyReWs s
  let s ← dropQuote s
  let (b, s) ← takeRun1 (fun c => !(isQuoteChar c)) s
  let _ ← dropQuote s
  pure (a, b)

/-- Python `re.search` for the fallback pattern: try each start position
left to right. -/
def searchChange : List Char → Option (List Char × List Char)
  | [] => none
  | c :: rest =>
    match matchChangeAt (c :: rest) with
    | some r => some r
    | none => searchChange rest

/-- The fixed financial keyword list of the highlight fallback. -/
def financial_terms : List String :=
  ["financial", "money", "cost", "budget", "revenue", "profit",
   "investment", "price", "fee"]

/-- The `for term in financial_terms: ... break` scan: first keyword
contained in the lowered original text. -/
def findFinancialTerm : List String → String → Option String
  | [], _ => none
  | t :: rest, lowOrig =>
    if pyContains t lowOrig then some t else findFinancialTerm rest lowOrig

/-- Result dict shape shared by the fallback and the LLM client: an edit
list plus a summary string. -/
structure FallbackResult where
  modifications : List ModDict
  summary : String
deriving DecidableEq

/-- The replace branch of utils.create_fallback_modification: it extracts
the two groups from the LOWERCASED query and then tests the lowercased
group against the raw original text, case-sensitively. -/
def fallbackReplaceMods (original_text modification_query : String) : List ModDict :=
  if pyContains "change" (pyLower modification_query)
      && pyContains "to" (pyLower modification_query) then
    match searchChange (pyLower modification_query).data with
    | some (a, b) =>
      if pyContains (String.mk a) original_text then
        [{ type := some "replace", original_text := some (String.mk a),
           new_text := some (String.mk b), text_to_highlight := none }]
      else []
    | none => []
  else []

/-- The highlight branch of utils.create_fallback_modification: scan the
fixed keyword list and stop at the first hit. -/
def fallbackHighlightMods (original_text modification_query : String) : List ModDict :=
  if pyContains "highlight" (pyLower modification_query) then
    match findFinancialTerm financial_terms (pyLower original_text) with
    | some t =>
      [{ type := some "highlight", original_text := none,
         new_text := none, text_to_highlight := some t }]
    | none => []
  else []

/-- utils.create_fallback_modification: the replace branch appends to the
list first, then the highlight branch. -/
def create_fallback_modification (original_text modification_query : String) :
    FallbackResult :=
  { modifications := fallbackReplaceMods original_text modification_query ++
      fallbackHighlightMods original_text modification_query,
    summary := "Fallback modification created for: " ++ modification_query }

/-! ## LLM client: gemini_client.get_llm_modifications -/

/-- Outcome of the external `model.generate_content` call: a response text,
or a raised exception (network, auth, quota, ...). -/
inductive ModelResponse where
  | success (text : String)
  | failure

/-- Python `s.startswith(pre)`. -/
def strStartsWith (pre s : String) : Bool := pre.data.isPrefixOf s.data

/-- Python `s.endswith(suf)`. -/
def strEndsWith (suf s : String) : Bool := suf.data.isSuffixOf s.data

/-- The response-cleaning steps of `get_llm_modifications`: strip, drop a
leading code fence (with or without the `json` tag), drop a trailing code
fence, strip again.  The three `if`s are sequential, each testing the
already-rewritten text, exactly as in the source. -/
def stripFences (raw : String) : String :=
  let t := pyStrip raw
  let t := if strStartsWith "```json" t then t.drop 7 else t
  let t := if strStartsWith "```" t then t.drop 3 else t
  let t := if strEndsWith "```" t then t.dropRight 3 else t
  pyStrip t

/-- gemini_client.get_llm_modifications, parameterised by an abstract
`json.loads`-plus-dict-reading function `parse` (`none` models
`json.JSONDecodeError`).  A raised `generate_content` call lands in the
outer `except`, returning the empty edit set with the fixed error summary;
a parse failure falls back to `create_fallback_modification`. -/
def get_llm_modifications (parse : String → Option FallbackResult)
    (resp : ModelResponse) (original_text modification_query : String) :
    FallbackResult :=
  match resp with
  | ModelResponse.failure => { modifications := [], summary := "Error occurred" }
  | ModelResponse.success text =>
    match parse (stripFences text) with
    | some r => r
    | none => create_fallback_modification original_text modification_query

/-! ## Spec-side definitions and well-formedness -/

/-- An edit dict with every field its branch reads present: a `type`, both
replace fields when it is a replace, the target when it is a highlight. -/
def WFMod (m : ModDict) : Bool :=
  m.type.isSome &&
  (m.type != some "replace" || (m.original_text.isSome && m.new_text.isSome)) &&
  (m.type != some "highlight" || m.text_to_highlight.isSome)

/-- Modelled from the claim wording: one step of the per-span replacement
pass whose gate tests `original_text` against the span's ORIGINAL text `t`,
while the substitution rewrites the current text `cur`. -/
def specStepOrig (t cur : String) (m : ModDict) : String :=
  match m.type, m.original_text, m.new_text with
  | some ty, some o, some n =>
    if ty = "replace" ∧ pyContains o t = true then pyReplace cur o n else cur
  | _, _, _ => cur

/-- Modelled from the claim wording: the per-span modified text with the
gate on the span's original text. -/
def specReplaceGateOriginal (mods : List ModDict) (t : String) : String :=
  mods.foldl (specStepOrig t) t

/-- Modelled from the claim wording: one step of the per-span replacement
pass whose gate tests `original_text` against the span's CURRENT
(already-partially-edited) text. -/
def specStepCur (cur : String) (m : ModDict) : String :=
  match m.type, m.original_text, m.new_text with
  | some ty, some o, some n =>
    if ty = "replace" ∧ pyContains o cur = true then pyReplace cur o n else cur
  | _, _, _ => cur

/-- Modelled from the claim wording: the per-span modified text with the
gate on the span's current text, as claim C1 states it. -/
def specReplaceGateCurrent (mods : List ModDict) (t : String) : String :=
  mods.foldl specStepCur t

/-! ## Replacement-pass lemmas -/

lemma applyReplaceMods_eq_spec (t : String) (mods : List ModDict)
    (hwf : mods.all WFMod = true) :
    ∀ cur, applyReplaceMods t mods cur = some (mods.foldl (specStepOrig t) cur) := by
  induction mods with
  | nil => intro cur; rfl
  | cons m rest ih =>
    intro cur
    simp only [List.all_cons, Bool.and_eq_true] at hwf
    obtain ⟨hm, hrest⟩ := hwf
    obtain ⟨mt, mo, mn, mh⟩ := m
    simp only [WFMod, Bool.and_eq_true, Bool.or_eq_true, bne_iff_ne, ne_eq,
      Option.isSome_iff_exists] at hm
    obtain ⟨⟨⟨ty, hty⟩, hrep⟩, -⟩ := hm
    have ihr := ih hrest
    subst hty
    by_cases h : ty = "replace"
    · subst h
      rcases hrep with h | ⟨⟨o, ho⟩, ⟨n, hn⟩⟩
      · exact absurd rfl h
      · subst ho; subst hn
        by_cases hc : pyContains o t = true
        · simp [applyReplaceMods, modStep, hc, ihr, specStepOrig]
        · simp [applyReplaceMods, modStep, hc, ihr, specStepOrig]
    · cases mo <;> cases mn <;>
        simp [applyReplaceMods, modStep, h, ihr, specStepOrig]

/-- C1: the claim says the gate of each Replace edit tests `original_text`
against the span's CURRENT partially-edited text.  The code tests it
against the span's ORIGINAL text (`if mod["original_text"] in
original_text`), so an edit whose pattern only appears after earlier edits
ran is skipped.  Concretely: span "a" with edits a→b then b→c yields "b",
while the claim's rule yields "c". -/
theorem replace_gate_current_counterexample :
    computeModifiedText
        [{ type := some "replace", original_text := some "a",
           new_text := some "b", text_to_highlight := none },
         { type := some "replace", original_text := some "b",
           new_text := some "c", text_to_highlight := none }] "a" ≠
      some (specReplaceGateCurrent
        [{ type := some "replace", original_text := some "a",
           new_text := some "b", text_to_highlight := none },
         { type := some "replace", original_text := some "b",
           new_text := some "c", text_to_highlight := none }] "a") := by
  decide

/-- C1 (amended): for a well-formed Edit Set, the per-span modified text is
computed by applying every Replace edit in Edit Set order whose
`original_text` is a substring of the span's ORIGINAL text, as a global
substitution applied to the current partially-edited text (so edits can
still compound, but only when each pattern occurs in the original text). -/
theorem replace_pass_gates_on_original_text (mods : List ModDict) (t : String)
    (hwf : mods.all WFMod = true) :
    computeModifiedText mods t = some (specReplaceGateOriginal mods t) :=
  applyReplaceMods_eq_spec t mods hwf t

/-- Witness for `replace_pass_gates_on_original_text` at a compounding
input: "abb" with edits ab→x then b→y renders as "xy". -/
theorem replace_pass_gates_on_original_text_witness :
    ([{ type := some "replace", original_text := some "ab",
        new_text := some "x", text_to_highlight := none },
      { type := some "replace", original_text := some "b",
        new_text := some "y", text_to_highlight := none }] : List ModDict).all
        WFMod = true ∧
    computeModifiedText
        [{ type := some "replace", original_text := some "ab",
           new_text := some "x", text_to_highlight := none },
         { type := some "replace", original_text := some "b",
           new_text := some "y", text_to_highlight := none }] "abb" =
      some (specReplaceGateOriginal
        [{ type := some "replace", original_text := some "ab",
           new_text := some "x", text_to_highlight := none },
         { type := some "replace", original_text := some "b",
           new_text := some "y", text_to_highlight := none }] "abb") :=
  ⟨by decide, replace_pass_gates_on_original_text _ _ (by decide)⟩

/-! ## Replace idempotence (C7) -/

lemma replaceAux_no_occurrence (p : Char) (ps rep : List Char) :
    ∀ (fuel : Nat) (s : List Char), s.length ≤ fuel → ¬((p :: ps) <:+: s) →
      replaceAux p ps rep fuel s = s := by
  intro fuel
  induction fuel with
  | zero =>
    intro s hs _
    cases s with
    | nil => rfl
    | cons c r => simp at hs
  | succ fuel ih =>
    intro s hs hinf
    cases s with
    | nil => rfl
    | cons c rest =>
      have hpre : ¬((p :: ps) <+: (c :: rest)) := fun hp => hinf hp.isInfix
      have hrest : ¬((p :: ps) <:+: rest) := fun hr => hinf (List.infix_cons hr)
      have hlen : rest.length ≤ fuel := by
        simp only [List.length_cons] at hs
        omega
      simp only [replaceAux, if_neg hpre, ih rest hlen hrest]

lemma pyReplace_of_not_contains (s pat rep : String)
    (h : pyContains pat s = false) : pyReplace s pat rep = s := by
  rcases hp : pat.data with _ | ⟨p, ps⟩
  · exfalso
    simp only [pyContains, hp, decide_eq_false_iff_not] at h
    exact h List.nil_infix
  · have hinf : ¬((p :: ps) <:+: s.data) := by
      simp only [pyContains, hp, decide_eq_false_iff_not] at h
      exact h
    unfold pyReplace
    rw [hp]
    show String.mk (replaceAux p ps rep.data s.data.length s.data) = s
    rw [replaceAux_no_occurrence p ps rep.data s.data.length s.data le_rfl hinf]

/-- C7: Replace-edit idempotence.  If one pass of the per-span replacement
body (`modStep`) turns `t0` into `t1`, and `t1` no longer contains the
edit's `original_text`, then running the same body again on `t1` leaves it
unchanged: the gate still consults the span's original text, but the
global substitution finds no occurrence. -/
theorem replace_second_pass_noop (o n origText t0 t1 : String) (tth : Option String)
    (_h1 : modStep origText t0
        { type := some "replace", original_text := some o,
          new_text := some n, text_to_highlight := tth } = some t1)
    (h2 : pyContains o t1 = false) :
    modStep origText t1
        { type := some "replace", original_text := some o,
          new_text := some n, text_to_highlight := tth } = some t1 := by
  by_cases hc : pyContains o origText = true
  · simp [modStep, hc, pyReplace_of_not_contains t1 o n h2]
  · simp [modStep, hc]

/-- Witness for `replace_second_pass_noop`: replacing "a" by "b" in span
"a" yields "b"; a second pass leaves "b" unchanged. -/
theorem replace_second_pass_noop_witness :
    modStep "a" "a"
        { type := some "replace", original_text := some "a",
          new_text := some "b", text_to_highlight := none } = some "b" ∧
    pyContains "a" "b" = false ∧
    modStep "a" "b"
        { type := some "replace", original_text := some "a",
          new_text := some "b", text_to_highlight := none } = some "b" :=
  ⟨by decide, by decide,
   replace_second_pass_noop "a" "b" "a" "a" "b" none (by decide) (by decide)⟩

/-! ## Empty edit set is the identity (C2) -/

lemma renderBlocks_empty_mods (env : Env)
    (hins : ∀ pos txt sz c, env.insertOk pos txt sz c = true) :
    ∀ blocks : List TextBlock, (∀ b ∈ blocks, pyStrip b.text ≠ "") →
      renderBlocks env [] blocks =
        some (blocks.map fun b =>
          Cmd.insertText (b.bbox.x0, b.bbox.y0 + b.size) b.text b.size
            (some b.color)) := by
  intro blocks
  induction blocks with
  | nil => intro _; rfl
  | cons b rest ih =>
    intro hne
    have hb : pyStrip b.text ≠ "" := hne b (by simp)
    have hrest : ∀ x ∈ rest, pyStrip x.text ≠ "" := fun x hx => hne x (by simp [hx])
    simp [renderBlocks, renderBlock, computeModifiedText, applyReplaceMods, hb,
      hins, ih hrest]

/-- C2: applying an empty Edit Set is an identity on text and geometry:
when every primary text draw succeeds and every extracted span strips to a
non-empty string (which `extract_pdf_data` guarantees), each output page is
created with exactly the source page's width and height and its command
list draws every span's original text, unaltered, at the span's recorded
position, size and colour — no span is altered or dropped, and no other
content is drawn. -/
theorem empty_edit_set_identity (env : Env) (pages : List PageData)
    (hins : ∀ pos txt sz c, env.insertOk pos txt sz c = true)
    (hne : ∀ pd ∈ pages, ∀ b ∈ pd.text_blocks, pyStrip b.text ≠ "") :
    apply_modifications_to_pdf env pages [] =
      some (pages.map fun pd =>
        { width := pd.page_width, height := pd.page_height,
          cmds := pd.text_blocks.map fun b =>
            Cmd.insertText (b.bbox.x0, b.bbox.y0 + b.size) b.text b.size
              (some b.color) }) := by
  unfold apply_modifications_to_pdf
  induction pages with
  | nil => rfl
  | cons pd rest ih =>
    have h1 := hne pd (by simp)
    have h2 : ∀ p ∈ rest, ∀ b ∈ p.text_blocks, pyStrip b.text ≠ "" :=
      fun p hp => hne p (by simp [hp])
    simp [renderPages, renderPage, renderBlocks_empty_mods env hins _ h1,
      renderHighlightMods, ih h2]

/-- A one-span sample page used by concrete witnesses. -/
def wPage : PageData :=
  { page_num := 0, page_width := 612, page_height := 792,
    text_blocks := [{ text := "Hello", bbox := ⟨72, 100, 200, 112⟩,
                      size := 12, font := "Helvetica",
                      color := Color.int 255 }] }

/-- Witness for `empty_edit_set_identity` on a one-page, one-span input. -/
theorem empty_edit_set_identity_witness :
    (∀ pos txt sz c, envAll.insertOk pos txt sz c = true) ∧
    apply_modifications_to_pdf envAll [wPage] [] =
      some ([wPage].map fun pd =>
        { width := pd.page_width, height := pd.page_height,
          cmds := pd.text_blocks.map fun b =>
            Cmd.insertText (b.bbox.x0, b.bbox.y0 + b.size) b.text b.size
              (some b.color) }) :=
  ⟨fun _ _ _ _ => rfl,
   empty_edit_set_identity envAll [wPage] (fun _ _ _ _ => rfl) (by decide)⟩

/-! ## Highlights are drawn after spans (C6) -/

lemma computeModifiedText_wf (mods : List ModDict) (t : String)
    (hwf : mods.all WFMod = true) :
    ∃ s, computeModifiedText mods t = some s :=
  ⟨_, applyReplaceMods_eq_spec t mods hwf t⟩

lemma renderBlock_wf (env : Env) (mods : List ModDict) (b : TextBlock)
    (hwf : mods.all WFMod = true) :
    ∃ cs, renderBlock env mods b = some cs ∧
      ∀ c ∈ cs, ∃ pos txt sz col, c = Cmd.insertText pos txt sz col := by
  obtain ⟨m, hm⟩ := computeModifiedText_wf mods b.text hwf
  by_cases h1 : pyStrip m = ""
  · exact ⟨[], by simp [renderBlock, hm, h1], by simp⟩
  · by_cases h2 : env.insertOk (b.bbox.x0, b.bbox.y0 + b.size) m b.size b.color = true
    · refine ⟨[Cmd.insertText (b.bbox.x0, b.bbox.y0 + b.size) m b.size (some b.color)],
        by simp [renderBlock, hm, h1, h2], ?_⟩
      intro c hc
      rw [List.mem_singleton] at hc
      subst hc
      exact ⟨_, _, _, _, rfl⟩
    · by_cases h3 : env.insertFallbackOk (b.bbox.x0, b.bbox.y0 + DEFAULT_FONT_SIZE) m = true
      · refine ⟨[Cmd.insertText (b.bbox.x0, b.bbox.y0 + DEFAULT_FONT_SIZE) m
            DEFAULT_FONT_SIZE none],
          by simp [renderBlock, hm, h1, h2, h3], ?_⟩
        intro c hc
        rw [List.mem_singleton] at hc
        subst hc
        exact ⟨_, _, _, _, rfl⟩
      · exact ⟨[], by simp [renderBlock, hm, h1, h2, h3], by simp⟩

lemma renderBlocks_wf (env : Env) (mods : List ModDict)
    (hwf : mods.all WFMod = true) :
    ∀ blocks : List TextBlock, ∃ cs, renderBlocks env mods blocks = some cs ∧
      ∀ c ∈ cs, ∃ pos txt sz col, c = Cmd.insertText pos txt sz col := by
  intro blocks
  induction blocks with
  | nil => exact ⟨[], rfl, by simp⟩
  | cons b rest ih =>
    obtain ⟨cs, hcs, hmem⟩ := ih
    obtain ⟨c0, hc0, hmem0⟩ := renderBlock_wf env mods b hwf
    refine ⟨c0 ++ cs, by simp [renderBlocks, hc0, hcs], ?_⟩
    intro c hc
    rcases List.mem_append.mp hc with h | h
    · exact hmem0 c h
    · exact hmem c h

lemma highlightSpans_spec (env : Env) (m : ModDict) (target : String)
    (hm : m.text_to_highlight = some target) :
    ∀ blocks : List TextBlock,
      highlightSpans env m blocks = some (blocks.flatMap (markFor env target)) := by
  intro blocks
  induction blocks with
  | nil => rfl
  | cons b rest ih => simp [highlightSpans, hm, ih]

lemma renderHighlightMods_wf (env : Env) (blocks : List TextBlock) :
    ∀ mods : List ModDict, mods.all WFMod = true →
      ∃ hs, renderHighlightMods env blocks mods = some hs ∧
        ∀ m ∈ mods, ∀ target, m.type = some "highlight" →
          m.text_to_highlight = some target →
          ∀ b ∈ blocks, pyContains (pyLower target) (pyLower b.text) = true →
            (if env.annotOk b.bbox = true
             then Cmd.highlightAnnot b.bbox DEFAULT_HIGHLIGHT_COLOR ∈ hs
             else Cmd.rectOutline b.bbox DEFAULT_HIGHLIGHT_COLOR 2 ∈ hs) := by
  intro mods
  induction mods with
  | nil => exact fun _ => ⟨[], rfl, by simp⟩
  | cons m rest ih =>
    intro hwf
    simp only [List.all_cons, Bool.and_eq_true] at hwf
    obtain ⟨hm, hrest⟩ := hwf
    obtain ⟨hs2, hhs2, hmem2⟩ := ih hrest
    have hty : ∃ ty, m.type = some ty := by
      simp only [WFMod, Bool.and_eq_true, Option.isSome_iff_exists] at hm
      exact hm.1.1
    obtain ⟨ty, hty⟩ := hty
    by_cases hhl : ty = "highlight"
    · subst hhl
      have htth : ∃ target, m.text_to_highlight = some target := by
        simp only [WFMod, hty, Bool.and_eq_true, Bool.or_eq_true, bne_iff_ne,
          ne_eq, Option.isSome_iff_exists] at hm
        rcases hm.2 with h | h
        · exact absurd trivial h
        · exact h
      obtain ⟨target, htth⟩ := htth
      refine ⟨blocks.flatMap (markFor env target) ++ hs2, ?_, ?_⟩
      · simp [renderHighlightMods, hlStep, hty, highlightSpans_spec env m target htth, hhs2]
      · intro m2 hm2 target2 hm2ty hm2t b hb hcon
        rcases List.mem_cons.mp hm2 with h | h
        · subst h
          have : target2 = target := by
            rw [htth] at hm2t
            exact (Option.some_inj.mp hm2t).symm
          subst this
          have hmark : ∀ c ∈ markFor env target2 b, c ∈ blocks.flatMap (markFor env target2) :=
            fun c hc => List.mem_flatMap.mpr ⟨b, hb, hc⟩
          by_cases ha : env.annotOk b.bbox = true
          · simp only [ha, if_true]
            exact List.mem_append.mpr (Or.inl (hmark _ (by simp [markFor, hcon, ha])))
          · simp only [ha, if_false]
            exact List.mem_append.mpr (Or.inl (hmark _ (by
              simp only [markFor, hcon, if_true]
              simp [ha])))
        · have := hmem2 m2 h target2 hm2ty hm2t b hb hcon
          by_cases ha : env.annotOk b.bbox = true
          · simp only [ha, if_true] at this ⊢
            exact List.mem_append.mpr (Or.inr this)
          · simp only [ha, if_false] at this ⊢
            exact List.mem_append.mpr (Or.inr this)
    · refine ⟨hs2, ?_, ?_⟩
      · simp [renderHighlightMods, hlStep, hty, hhl, hhs2]
      · intro m2 hm2 target2 hm2ty hm2t b hb hcon
        rcases List.mem_cons.mp hm2 with h | h
        · subst h
          rw [hty] at hm2ty
          exact absurd (Option.some_inj.mp hm2ty) hhl
        · exact hmem2 m2 h target2 hm2ty hm2t b hb hcon

lemma renderPage_wf (env : Env) (mods : List ModDict) (pd : PageData)
    (hwf : mods.all WFMod = true) :
    ∃ ts hs, renderPage env mods pd =
        some { width := pd.page_width, height := pd.page_height, cmds := ts ++ hs } ∧
      (∀ c ∈ ts, ∃ pos txt sz col, c = Cmd.insertText pos txt sz col) ∧
      ∀ m ∈ mods, ∀ target, m.type = some "highlight" →
        m.text_to_highlight = some target →
        ∀ b ∈ pd.text_blocks, pyContains (pyLower target) (pyLower b.text) = true →
          (if env.annotOk b.bbox = true
           then Cmd.highlightAnnot b.bbox DEFAULT_HIGHLIGHT_COLOR ∈ hs
           else Cmd.rectOutline b.bbox DEFAULT_HIGHLIGHT_COLOR 2 ∈ hs) := by
  obtain ⟨ts, hts, htsmem⟩ := renderBlocks_wf env mods hwf pd.text_blocks
  obtain ⟨hs, hhs, hhsmem⟩ := renderHighlightMods_wf env pd.text_blocks mods hwf
  exact ⟨ts, hs, by simp [renderPage, hts, hhs], htsmem, hhsmem⟩

/-- The per-document statement of claim C6: rendering succeeds, produces
one output page per source page, and on each page the command list is a
text-insertion part followed by a highlight part in which, for every
Highlight edit and every span whose ORIGINAL text contains the target
case-insensitively, a mark covering that span's bounding box appears: a
native highlight annotation when the annotation call succeeds, otherwise
an unfilled rectangle outline at the same position. -/
def HighlightsDrawn (env : Env) (pages : List PageData) (mods : List ModDict) : Prop :=
  ∃ out, apply_modifications_to_pdf env pages mods = some out ∧
    out.length = pages.length ∧
    ∀ (i : Nat) (pd : PageData) (pg : Page), pages[i]? = some pd → out[i]? = some pg →
      ∃ ts hs, pg.cmds = ts ++ hs ∧
        (∀ c ∈ ts, ∃ pos txt sz col, c = Cmd.insertText pos txt sz col) ∧
        ∀ m ∈ mods, ∀ target, m.type = some "highlight" →
          m.text_to_highlight = some target →
          ∀ b ∈ pd.text_blocks, pyContains (pyLower target) (pyLower b.text) = true →
            (if env.annotOk b.bbox = true
             then Cmd.highlightAnnot b.bbox DEFAULT_HIGHLIGHT_COLOR ∈ hs
             else Cmd.rectOutline b.bbox DEFAULT_HIGHLIGHT_COLOR 2 ∈ hs)

/-- C6: for every well-formed Edit Set, every Highlight edit and every
span whose original (pre-edit) text contains the edit's target text
case-insensitively gets a mark covering that span's bounding box, drawn
after all spans of the page; when the native annotation fails the mark is
an unfilled rectangle outline at the same position. -/
theorem highlight_marks_after_spans (env : Env) (pages : List PageData)
    (mods : List ModDict) (hwf : mods.all WFMod = true) :
    HighlightsDrawn env pages mods := by
  unfold HighlightsDrawn apply_modifications_to_pdf
  induction pages with
  | nil =>
    refine ⟨[], rfl, rfl, ?_⟩
    intro i pd pg hpd
    simp at hpd
  | cons pd rest ih =>
    obtain ⟨out, hout, hlen, hmem⟩ := ih
    obtain ⟨ts, hs, hpg, htsmem, hhsmem⟩ := renderPage_wf env mods pd hwf
    refine ⟨{ width := pd.page_width, height := pd.page_height, cmds := ts ++ hs } :: out,
      by simp [renderPages, hpg, hout], by simp [hlen], ?_⟩
    intro i pd2 pg2 hpd2 hpg2
    cases i with
    | zero =>
      simp only [List.getElem?_cons_zero, Option.some_inj] at hpd2 hpg2
      subst hpd2
      subst hpg2
      exact ⟨ts, hs, rfl, htsmem, hhsmem⟩
    | succ j =>
      simp only [List.getElem?_cons_succ] at hpd2 hpg2
      exact hmem j pd2 pg2 hpd2 hpg2

/-- Witness for `highlight_marks_after_spans`: one page whose span
"Budget 2024" matches target "budget", in an environment where the native
annotation fails, so the rectangle-outline fallback is drawn. -/
theorem highlight_marks_after_spans_witness :
    ([{ type := some "highlight", original_text := none, new_text := none,
        text_to_highlight := some "budget" }] : List ModDict).all WFMod = true ∧
    HighlightsDrawn
      { insertOk := fun _ _ _ _ => true, insertFallbackOk := fun _ _ => true,
        annotOk := fun _ => false }
      [{ page_num := 0, page_width := 612, page_height := 792,
         text_blocks := [{ text := "Budget 2024", bbox := ⟨10, 20, 30, 40⟩,
                           size := 11, font := "F", color := Color.int 0 }] }]
      [{ type := some "highlight", original_text := none, new_text := none,
         text_to_highlight := some "budget" }] :=
  ⟨by decide, highlight_marks_after_spans _ _ _ (by decide)⟩

/-! ## Missing required fields (C10) and the temp-file lifecycle (C4) -/

lemma applyReplaceMods_none (t : String) (m : ModDict)
    (hfail : ∀ cur, modStep t cur m = none) :
    ∀ mods : List ModDict, m ∈ mods → ∀ cur, applyReplaceMods t mods cur = none := by
  intro mods
  induction mods with
  | nil => intro h; cases h
  | cons x rest ih =>
    intro hm cur
    rcases List.mem_cons.mp hm with h | h
    · subst h
      simp [applyReplaceMods, hfail cur]
    · cases hx : modStep t cur x with
      | none => simp [applyReplaceMods, hx]
      | some nxt => simp [applyReplaceMods, hx, ih h]

lemma renderBlocks_none (env : Env) (mods : List ModDict) (b : TextBlock)
    (hfail : renderBlock env mods b = none) :
    ∀ blocks : List TextBlock, b ∈ blocks → renderBlocks env mods blocks = none := by
  intro blocks
  induction blocks with
  | nil => intro h; cases h
  | cons x rest ih =>
    intro hb
    rcases List.mem_cons.mp hb with h | h
    · subst h
      simp [renderBlocks, hfail]
    · cases hx : renderBlock env mods x with
      | none => simp [renderBlocks, hx]
      | some cs => simp [renderBlocks, hx, ih h]

lemma renderHighlightMods_none (env : Env) (blocks : List TextBlock) (m : ModDict)
    (hfail : hlStep env blocks m = none) :
    ∀ mods : List ModDict, m ∈ mods → renderHighlightMods env blocks mods = none := by
  intro mods
  induction mods with
  | nil => intro h; cases h
  | cons x rest ih =>
    intro hm
    rcases List.mem_cons.mp hm with h | h
    · subst h
      simp [renderHighlightMods, hfail]
    · cases hx : hlStep env blocks x with
      | none => simp [renderHighlightMods, hx]
      | some cs => simp [renderHighlightMods, hx, ih h]

lemma renderPages_none (env : Env) (mods : List ModDict) (pd : PageData)
    (hfail : renderPage env mods pd = none) :
    ∀ pages : List PageData, pd ∈ pages → renderPages env mods pages = none := by
  intro pages
  induction pages with
  | nil => intro h; cases h
  | cons x rest ih =>
    intro hp
    rcases List.mem_cons.mp hp with h | h
    · subst h
      simp [renderPages, hfail]
    · cases hx : renderPage env mods x with
      | none => simp [renderPages, hx]
      | some pg => simp [renderPages, hx, ih h]

lemma renderPage_none_of_blocks (env : Env) (mods : List ModDict) (pd : PageData)
    (h : renderBlocks env mods pd.text_blocks = none) :
    renderPage env mods pd = none := by
  simp [renderPage, h]

lemma renderPage_none_of_highlights (env : Env) (mods : List ModDict) (pd : PageData)
    (h : renderHighlightMods env pd.text_blocks mods = none) :
    renderPage env mods pd = none := by
  cases hb : renderBlocks env mods pd.text_blocks with
  | none => simp [renderPage, hb]
  | some cs => simp [renderPage, hb, h]

/-- A modification with no `"type"` key aborts every page: the text pass
reads it per span and the highlight pass reads it unconditionally. -/
lemma renderPage_none_of_no_type (env : Env) (mods : List ModDict) (m : ModDict)
    (hm : m ∈ mods) (hty : m.type = none) (pd : PageData) :
    renderPage env mods pd = none := by
  have hstep : hlStep env pd.text_blocks m = none := by
    simp [hlStep, hty]
  exact renderPage_none_of_highlights env mods pd
    (renderHighlightMods_none env pd.text_blocks m hstep mods hm)

/-- The reachability conditions under which a missing required field is
actually read by `apply_modifications_to_pdf`: a missing `type` needs at
least one page; missing replace fields need a span (and, for `new_text`,
an occurrence of `original_text` in some span's text); a missing
`text_to_highlight` needs a page with at least one span. -/
def MissingFieldReached (pages : List PageData) (mods : List ModDict) : Prop :=
  (pages ≠ [] ∧ ∃ m ∈ mods, m.type = none) ∨
  ((∃ pd ∈ pages, pd.text_blocks ≠ []) ∧
    ∃ m ∈ mods, m.type = some "replace" ∧ m.original_text = none) ∨
  (∃ m ∈ mods, m.type = some "replace" ∧ m.new_text = none ∧
    ∃ o, m.original_text = some o ∧
      ∃ pd ∈ pages, ∃ b ∈ pd.text_blocks, pyContains o b.text = true) ∨
  ((∃ pd ∈ pages, pd.text_blocks ≠ []) ∧
    ∃ m ∈ mods, m.type = some "highlight" ∧ m.text_to_highlight = none)

/-- C10 (amended): an edit lacking a required field makes the whole
generation fail — `apply_modifications_to_pdf` returns `False` and
`generate_modified_pdf` returns `b""` — provided the missing key is
actually read: the `type` key whenever there is at least one page, the
replace keys when some span exists (for `new_text`, when `original_text`
occurs in some span), the highlight target when some page has a span.
When the access is never reached (no pages, or no spans) the malformed
edit is silently ignored and generation succeeds. -/
theorem missing_required_field_fails (env : Env) (pages : List PageData)
    (mods : List ModDict) (h : MissingFieldReached pages mods) :
    apply_modifications_to_pdf env pages mods = none ∧
    generate_modified_pdf env pages mods =
      { output := none, tempRemoved := false } := by
  have happly : apply_modifications_to_pdf env pages mods = none := by
    unfold apply_modifications_to_pdf
    rcases h with ⟨hne, m, hm, hty⟩ | ⟨⟨pd, hpd, hblk⟩, m, hm, hty, ho⟩ |
      ⟨m, hm, hty, hn, o, ho, pd, hpd, b, hb, hc⟩ | ⟨⟨pd, hpd, hblk⟩, m, hm, hty, ht⟩
    · obtain ⟨pd, hpd⟩ : ∃ pd, pd ∈ pages := by
        cases pages with
        | nil => exact absurd rfl hne
        | cons x xs => exact ⟨x, by simp⟩
      exact renderPages_none env mods pd
        (renderPage_none_of_no_type env mods m hm hty pd) pages hpd
    · obtain ⟨b, hb⟩ : ∃ b, b ∈ pd.text_blocks := by
        cases hbs : pd.text_blocks with
        | nil => exact absurd hbs hblk
        | cons x xs => exact ⟨x, by simp [hbs]⟩
      have hfail : ∀ cur, modStep b.text cur m = none := by
        intro cur
        simp [modStep, hty, ho]
      have hblock : renderBlock env mods b = none := by
        simp [renderBlock, computeModifiedText,
          applyReplaceMods_none b.text m hfail mods hm]
      exact renderPages_none env mods pd
        (renderPage_none_of_blocks env mods pd
          (renderBlocks_none env mods b hblock pd.text_blocks hb)) pages hpd
    · have hfail : ∀ cur, modStep b.text cur m = none := by
        intro cur
        simp [modStep, hty, ho, hc, hn]
      have hblock : renderBlock env mods b = none := by
        simp [renderBlock, computeModifiedText,
          applyReplaceMods_none b.text m hfail mods hm]
      exact renderPages_none env mods pd
        (renderPage_none_of_blocks env mods pd
          (renderBlocks_none env mods b hblock pd.text_blocks hb)) pages hpd
    · have hstep : hlStep env pd.text_blocks m = none := by
        cases hbs : pd.text_blocks with
        | nil => exact absurd hbs hblk
        | cons x xs => simp [hlStep, hty, highlightSpans, ht]
      exact renderPages_none env mods pd
        (renderPage_none_of_highlights env mods pd
          (renderHighlightMods_none env pd.text_blocks m hstep mods hm)) pages hpd
  refine ⟨happly, ?_⟩
  unfold generate_modified_pdf
  rw [happly]

/-- C10 counterexample: a Highlight edit lacking its required
`text_to_highlight` key does NOT fail the generation when the page has no
spans — the key is only read inside the span loop — so the claim's
unconditional "the whole generation fails" is false.  Generation succeeds
and returns the rendered (empty) page. -/
theorem missing_highlight_key_counterexample :
    generate_modified_pdf envAll
        [{ page_num := 0, page_width := 612, page_height := 792,
           text_blocks := [] }]
        [{ type := some "highlight", original_text := none, new_text := none,
           text_to_highlight := none }] =
      { output := some [{ width := 612, height := 792, cmds := [] }],
        tempRemoved := true } := by
  rfl

/-- Witness for `missing_required_field_fails`: one page with one span and
an edit dict lacking every key. -/
theorem missing_required_field_fails_witness :
    MissingFieldReached [wPage]
        [{ type := none, original_text := none, new_text := none,
           text_to_highlight := none }] ∧
    apply_modifications_to_pdf envAll [wPage]
        [{ type := none, original_text := none, new_text := none,
           text_to_highlight := none }] = none ∧
    generate_modified_pdf envAll [wPage]
        [{ type := none, original_text := none, new_text := none,
           text_to_highlight := none }] =
      { output := none, tempRemoved := false } :=
  ⟨by unfold MissingFieldReached; decide,
   (missing_required_field_fails envAll [wPage] _
     (by unfold MissingFieldReached; decide)).1,
   (missing_required_field_fails envAll [wPage] _
     (by unfold MissingFieldReached; decide)).2⟩

/-- C4: `generate_modified_pdf` does NOT remove the temporary file on the
failure path: when `apply_modifications_to_pdf` fails (here: an edit dict
with no `type` key on a one-span page), the raised exception jumps over
`os.unlink` into the `except` branch, which returns `b""` with the
temporary file still on disk. -/
theorem temp_file_left_on_failure :
    generate_modified_pdf envAll [wPage]
        [{ type := none, original_text := none, new_text := none,
           text_to_highlight := none }] =
      { output := none, tempRemoved := false } := by
  rfl

/-! ## Span extractor properties (C9) -/

lemma extractPages_length (doc : List RawPage) :
    ∀ k, (extractPages k doc).length = doc.length := by
  induction doc with
  | nil => intro k; rfl
  | cons p rest ih =>
    intro k
    simp [extractPages, ih (k + 1)]

lemma extractPages_getElem (doc : List RawPage) :
    ∀ (k i : Nat), (extractPages k doc)[i]? =
      (doc[i]?).map fun rp =>
        { page_num := k + i, page_width := rp.width, page_height := rp.height,
          text_blocks := extractSpans rp.blocks } := by
  induction doc with
  | nil => intro k i; simp [extractPages]
  | cons p rest ih =>
    intro k i
    cases i with
    | zero => simp [extractPages]
    | succ j =>
      simp only [extractPages, List.getElem?_cons_succ, ih (k + 1) j]
      have : k + 1 + j = k + (j + 1) := by omega
      rw [this]

lemma extractLine_strip (line : List RawSpan) :
    ∀ tb ∈ extractLine line, pyStrip tb.text ≠ "" := by
  induction line with
  | nil => simp [extractLine]
  | cons s rest ih =>
    intro tb htb
    by_cases h : pyStrip s.text = ""
    · rw [extractLine, if_pos h] at htb
      exact ih tb htb
    · rw [extractLine, if_neg h] at htb
      rcases List.mem_cons.mp htb with heq | hmem
      · subst heq
        exact h
      · exact ih tb hmem

lemma extractLines_strip (lines : List (List RawSpan)) :
    ∀ tb ∈ extractLines lines, pyStrip tb.text ≠ "" := by
  induction lines with
  | nil => simp [extractLines]
  | cons line rest ih =>
    intro tb htb
    rw [extractLines] at htb
    rcases List.mem_append.mp htb with h | h
    · exact extractLine_strip line tb h
    · exact ih tb h

lemma extractSpans_strip (blocks : List RawBlock) :
    ∀ tb ∈ extractSpans blocks, pyStrip tb.text ≠ "" := by
  induction blocks with
  | nil => simp [extractSpans]
  | cons blk rest ih =>
    intro tb htb
    cases blk with
    | imageBlock =>
      rw [extractSpans] at htb
      exact ih tb htb
    | textBlock lines =>
      rw [extractSpans] at htb
      rcases List.mem_append.mp htb with h | h
      · exact extractLines_strip lines tb h
      · exact ih tb h

lemma extractLine_mem (line : List RawSpan) (s : RawSpan) (hs : s ∈ line)
    (hne : pyStrip s.text ≠ "") :
    ({ text := s.text, bbox := s.bbox, size := s.size, font := s.font,
       color := if s.color = 0 then DEFAULT_TEXT_COLOR else Color.int s.color } :
      TextBlock) ∈ extractLine line := by
  induction line with
  | nil => cases hs
  | cons x rest ih =>
    rcases List.mem_cons.mp hs with h | h
    · subst h
      rw [extractLine, if_neg hne]
      exact List.mem_cons_self _ _
    · by_cases hx : pyStrip x.text = ""
      · rw [extractLine, if_pos hx]
        exact ih h
      · rw [extractLine, if_neg hx]
        exact List.mem_cons_of_mem _ (ih h)

lemma extractLines_mem (lines : List (List RawSpan)) (line : List RawSpan)
    (hl : line ∈ lines) (s : RawSpan) (hs : s ∈ line)
    (hne : pyStrip s.text ≠ "") :
    ({ text := s.text, bbox := s.bbox, size := s.size, font := s.font,
       color := if s.color = 0 then DEFAULT_TEXT_COLOR else Color.int s.color } :
      TextBlock) ∈ extractLines lines := by
  induction lines with
  | nil => cases hl
  | cons x rest ih =>
    rw [extractLines]
    rcases List.mem_cons.mp hl with h | h
    · subst h
      exact List.mem_append.mpr (Or.inl (extractLine_mem line s hs hne))
    · exact List.mem_append.mpr (Or.inr (ih h))

lemma extractSpans_mem (blocks : List RawBlock) (lines : List (List RawSpan))
    (hb : RawBlock.textBlock lines ∈ blocks) (line : List RawSpan)
    (hl : line ∈ lines) (s : RawSpan) (hs : s ∈ line)
    (hne : pyStrip s.text ≠ "") :
    ({ text := s.text, bbox := s.bbox, size := s.size, font := s.font,
       color := if s.color = 0 then DEFAULT_TEXT_COLOR else Color.int s.color } :
      TextBlock) ∈ extractSpans blocks := by
  induction blocks with
  | nil => cases hb
  | cons x rest ih =>
    rcases List.mem_cons.mp hb with h | h
    · subst h
      rw [extractSpans]
      exact List.mem_append.mpr (Or.inl (extractLines_mem lines line hl s hs hne))
    · cases x with
      | imageBlock =>
        rw [extractSpans]
        exact ih h
      | textBlock ls =>
        rw [extractSpans]
        exact List.mem_append.mpr (Or.inr (ih h))

/-- The per-document statement of claim C9: one Page record per source
page, in increasing page-index order; geometry preserved; pages without
blocks kept with an empty span list; every recorded span non-empty after
stripping; every non-empty raw span recorded, with the default text colour
substituted exactly when the raw colour is the sentinel 0. -/
def ExtractOk (doc : List RawPage) : Prop :=
  (extract_pdf_data doc).length = doc.length ∧
  ∀ (i : Nat) (pd : PageData), (extract_pdf_data doc)[i]? = some pd →
    pd.page_num = i ∧
    ∀ rp : RawPage, doc[i]? = some rp →
      pd.page_width = rp.width ∧ pd.page_height = rp.height ∧
      (rp.blocks = [] → pd.text_blocks = []) ∧
      (∀ tb ∈ pd.text_blocks, pyStrip tb.text ≠ "") ∧
      (∀ lines : List (List RawSpan), RawBlock.textBlock lines ∈ rp.blocks →
        ∀ line ∈ lines, ∀ s ∈ line, pyStrip s.text ≠ "" →
          ({ text := s.text, bbox := s.bbox, size := s.size, font := s.font,
             color := if s.color = 0 then DEFAULT_TEXT_COLOR
                      else Color.int s.color } : TextBlock) ∈ pd.text_blocks)

/-- C9: for every parseable document the Span Extractor returns exactly
one Page record per document page in increasing page-index order, keeps
empty pages with their geometry and an empty span list, records only spans
that are non-empty after stripping, and records a span whose source colour
is 0 with the default text colour. -/
theorem span_extractor_contract (doc : List RawPage) : ExtractOk doc := by
  refine ⟨extractPages_length doc 0, ?_⟩
  intro i pd hpd
  rw [extract_pdf_data, extractPages_getElem doc 0 i] at hpd
  cases hrp : doc[i]? with
  | none => rw [hrp] at hpd; cases hpd
  | some rp =>
    rw [hrp] at hpd
    simp only [Option.map_some', Option.some_inj] at hpd
    subst hpd
    refine ⟨Nat.zero_add i, ?_⟩
    intro rp2 hrp2
    obtain rfl : rp = rp2 := Option.some_inj.mp hrp2
    refine ⟨rfl, rfl, ?_, ?_, ?_⟩
    · intro hblocks
      simp [hblocks, extractSpans]
    · exact fun tb htb => extractSpans_strip rp.blocks tb htb
    · intro lines hb line hl s hs hne
      exact extractSpans_mem rp.blocks lines hb line hl s hs hne

/-- Witness for `span_extractor_contract`: a two-page document with an
empty page and a page holding one colour-0 span and one whitespace-only
span (which is dropped). -/
theorem span_extractor_contract_witness :
    ExtractOk
      [{ width := 612, height := 792, blocks := [] },
       { width := 500, height := 700,
         blocks := [RawBlock.textBlock
           [[{ text := "Total cost", bbox := ⟨1, 2, 3, 4⟩, size := 10,
               font := "F", color := 0 },
             { text := "   ", bbox := ⟨5, 6, 7, 8⟩, size := 10,
               font := "F", color := 7 }]],
           RawBlock.imageBlock] }] :=
  span_extractor_contract _

/-! ## Fallback heuristic: the change pattern (C3) -/

/-- The fixed instruction string of claim C3 (single quotes spelled via
their code point). -/
def fixedQuery : String :=
  "Change " ++ sq ++ "Chapter 2: Background" ++ sq ++ " to " ++ sq ++
    "Chapter 2: Fundamentals" ++ sq

/-- C3 counterexample: for the document text "Chapter 2: Background" —
which contains the claim's required substring verbatim — the fallback
emits NO edit at all: the extracted group is lowercased with the whole
instruction and then tested against the raw document text
case-sensitively, and "chapter 2: background" is not a substring of
"Chapter 2: Background". -/
theorem fallback_change_case_counterexample :
    pyContains "Chapter 2: Background" "Chapter 2: Background" = true ∧
    (create_fallback_modification "Chapter 2: Background" fixedQuery).modifications
      = [] := by
  constructor
  · decide
  · decide

/-- C3 (amended): for the fixed instruction, the fallback emits exactly
one Replace edit with `original_text = "chapter 2: background"` and
`new_text = "chapter 2: fundamentals"` for every document text containing
the LOWERCASED pattern "chapter 2: background" (a case-sensitive test
against the raw document text); document texts containing only the
original capitalisation get no edit. -/
theorem fallback_change_lowercased_pattern (docText : String)
    (h : pyContains "chapter 2: background" docText = true) :
    (create_fallback_modification docText fixedQuery).modifications =
      [{ type := some "replace", original_text := some "chapter 2: background",
         new_text := some "chapter 2: fundamentals", text_to_highlight := none }] := by
  have h1 : (pyContains "change" (pyLower fixedQuery)
      && pyContains "to" (pyLower fixedQuery)) = true := by decide
  have h2 : searchChange (pyLower fixedQuery).data =
      some ("chapter 2: background".data, "chapter 2: fundamentals".data) := by
    decide
  have h3 : pyContains "highlight" (pyLower fixedQuery) = false := by decide
  have hmk1 : String.mk "chapter 2: background".data = "chapter 2: background" := rfl
  have hmk2 : String.mk "chapter 2: fundamentals".data = "chapter 2: fundamentals" := rfl
  unfold create_fallback_modification fallbackReplaceMods fallbackHighlightMods
  rw [h1, h2, h3]
  simp only [if_true, hmk1, hmk2, h]
  simp

/-- Witness for `fallback_change_lowercased_pattern` at a lowercase
document text. -/
theorem fallback_change_lowercased_pattern_witness :
    pyContains "chapter 2: background" "intro chapter 2: background end" = true ∧
    (create_fallback_modification "intro chapter 2: background end"
        fixedQuery).modifications =
      [{ type := some "replace", original_text := some "chapter 2: background",
         new_text := some "chapter 2: fundamentals", text_to_highlight := none }] :=
  ⟨by decide, fallback_change_lowercased_pattern _ (by decide)⟩

/-! ## Fallback heuristic: the highlight keyword scan (C8) -/

lemma findFinancialTerm_eq_filter_head (s : String) :
    ∀ terms : List String, findFinancialTerm terms s =
      (terms.filter fun t => pyContains t s).head? := by
  intro terms
  induction terms with
  | nil => rfl
  | cons t rest ih =>
    by_cases h : pyContains t s = true
    · simp [findFinancialTerm, h, List.filter_cons]
    · simp [findFinancialTerm, h, List.filter_cons, ih]

lemma contains_highlight_lower (query : String)
    (h : "highlight".data <:+: query.data) :
    pyContains "highlight" (pyLower query) = true := by
  have hm := List.IsInfix.map Char.toLower h
  have heq : "highlight".data.map Char.toLower = "highlight".data := by decide
  rw [heq] at hm
  simp only [pyContains, pyLower, decide_eq_true_eq]
  exact hm

lemma fallbackReplaceMods_types (origText query : String) :
    ∀ m ∈ fallbackReplaceMods origText query, m.type = some "replace" := by
  intro m hm
  unfold fallbackReplaceMods at hm
  split at hm
  · split at hm
    · split at hm
      · rw [List.mem_singleton] at hm
        subst hm
        rfl
      · cases hm
    · cases hm
  · cases hm

/-- C8: when the instruction contains "highlight", the fallback emits
exactly one Highlight edit for the FIRST keyword of the fixed list that
occurs (case-insensitively, via the lowered document text) in the original
text — never edits for later matching keywords — and no Highlight edit at
all when no keyword occurs. -/
theorem highlight_fallback_first_keyword (origText query : String)
    (h : "highlight".data <:+: query.data) :
    (create_fallback_modification origText query).modifications.filter
        (fun m => m.type == some "highlight") =
      (match financial_terms.filter (fun t => pyContains t (pyLower origText)) with
       | [] => []
       | t :: _ =>
         [{ type := some "highlight", original_text := none, new_text := none,
            text_to_highlight := some t }]) := by
  have hq := contains_highlight_lower query h
  unfold create_fallback_modification
  simp only [List.filter_append]
  have hrep : (fallbackReplaceMods origText query).filter
      (fun m => m.type == some "highlight") = [] := by
    rw [List.filter_eq_nil_iff]
    intro m hm
    rw [fallbackReplaceMods_types origText query m hm]
    decide
  rw [hrep]
  unfold fallbackHighlightMods
  rw [hq, if_pos rfl]
  rw [findFinancialTerm_eq_filter_head (pyLower origText) financial_terms]
  cases hfl : financial_terms.filter (fun t => pyContains t (pyLower origText)) with
  | nil => simp
  | cons t rest => simp

/-- Witness for `highlight_fallback_first_keyword`: with the instruction
"please highlight financial information" and document text containing
"budget" and "price" but no earlier keyword, exactly one Highlight edit is
emitted, for "budget". -/
theorem highlight_fallback_first_keyword_witness :
    ("highlight".data <:+: "please highlight financial information".data) ∧
    (create_fallback_modification "The budget and the price"
        "please highlight financial information").modifications.filter
        (fun m => m.type == some "highlight") =
      (match financial_terms.filter
          (fun t => pyContains t (pyLower "The budget and the price")) with
       | [] => []
       | t :: _ =>
         [{ type := some "highlight", original_text := none, new_text := none,
            text_to_highlight := some t }]) :=
  ⟨by decide, highlight_fallback_first_keyword _ _ (by decide)⟩

/-! ## LLM client failure paths (C5) -/

/-- C5: a malformed model response never raises: when the cleaned response
text fails to parse as JSON, the client returns exactly the deterministic
fallback Edit Set; when the model call itself raises, it returns the empty
Edit Set with the fixed error summary. -/
theorem malformed_response_never_raises (parse : String → Option FallbackResult)
    (text original_text query : String)
    (h : parse (stripFences text) = none) :
    get_llm_modifications parse (ModelResponse.success text) original_text query =
      create_fallback_modification original_text query ∧
    get_llm_modifications parse ModelResponse.failure original_text query =
      { modifications := [], summary := "Error occurred" } := by
  constructor
  · simp [get_llm_modifications, h]
  · rfl

/-- Witness for `malformed_response_never_raises` with an always-failing
parser on a non-JSON response. -/
theorem malformed_response_never_raises_witness :
    ((fun _ : String => (none : Option FallbackResult))
        (stripFences "I am not JSON") = none) ∧
    (get_llm_modifications (fun _ => none) (ModelResponse.success "I am not JSON")
        "doc text" "please edit" =
      create_fallback_modification "doc text" "please edit" ∧
    get_llm_modifications (fun _ => none) ModelResponse.failure
        "doc text" "please edit" =
      { modifications := [], summary := "Error occurred" }) :=
  ⟨rfl, malformed_response_never_raises (fun _ => none) "I am not JSON"
    "doc text" "please edit" rfl⟩

end AiPdfEditor
